import Mathlib

/-!
Verification development for the FPL price-change tracker.

The definitions below are a shallow embedding of the two scripts
`price_diff.py` (change detection, ranking, Telegram trimming, X chunking,
snapshot store) and `post_to_x.py` (retrying publisher, thread linkage).
Python strings are modelled by Lean `String` (a list of unicode scalar
characters, matching `len`/indexing on Python `str` code points); Python
`float` values that are only stored and compared (ownership percentages)
are modelled by `Rat`; Python dicts read with `.get` are modelled by
association lists with `List.lookup` / total functions with defaults.
Bounded `while` loops are written with an explicit fuel argument that is
instantiated with a bound strictly larger than the number of iterations
the loop can make (each iteration removes at least one list element), so
the fuel-zero branch is unreachable at every call site.
-/

/-! ### String helpers (models of Python str methods) -/

/-- Model of Python `str.lower` (per-character lowercasing). -/
def lowerStr (s : String) : String := ⟨s.data.map Char.toLower⟩

/-- Model of Python `str.lstrip()` (strip leading whitespace). -/
def lstripStr (s : String) : String := ⟨s.data.dropWhile Char.isWhitespace⟩

/-- Model of Python `str.rstrip()` (strip trailing whitespace). -/
def rstripStr (s : String) : String := ⟨(s.data.reverse.dropWhile Char.isWhitespace).reverse⟩

/-- Model of Python `str.strip()` (strip both ends). -/
def stripStr (s : String) : String := rstripStr (lstripStr s)

/-- Model of Python `str.startswith`. -/
def startsWithStr (s pre : String) : Bool := pre.data.isPrefixOf s.data

/-- Auxiliary scan for substring containment. -/
def containsSubAux (needle : List Char) : List Char → Bool
  | [] => needle.isEmpty
  | c :: t => needle.isPrefixOf (c :: t) || containsSubAux needle t

/-- Model of Python `needle in hay` on strings (substring containment). -/
def containsSub (needle hay : String) : Bool := containsSubAux needle.data hay.data

/-- Model of Python `"\n".join(lines)`. -/
def joinNL : List String → String
  | [] => ""
  | [s] => s
  | s :: t :: r => s ++ "\n" ++ joinNL (t :: r)

/-- Lexicographic order on strings by code point, as Python compares `str`. -/
def strLt (a b : String) : Prop := a.data < b.data

/-- Non-strict lexicographic order on strings. -/
def strLe (a b : String) : Prop := a.data ≤ b.data

instance (a b : String) : Decidable (strLt a b) :=
  inferInstanceAs (Decidable (a.data < b.data))

instance (a b : String) : Decidable (strLe a b) :=
  inferInstanceAs (Decidable (a.data ≤ b.data))

/-- Model of Python `str(i)` for integers. -/
def strOfInt : Int → String
  | Int.ofNat n => Nat.repr n
  | Int.negSucc n => "-" ++ Nat.repr (n + 1)

/-! ### price_diff.py: data model and diff engine -/

/-- Budget for the single Telegram message (`SAFE_BUDGET` in the source). -/
def SAFE_BUDGET : Nat := 3900

/-- Per-chunk budget for X posts (`max_len=255` in the source). -/
def X_MAX_LEN : Nat := 255

/-- Decimal rendering of a nonnegative amount of tenths, one decimal digit. -/
def fmtTenthsAbs (n : Nat) : String := Nat.repr (n / 10) ++ "." ++ Nat.repr (n % 10)

/-- Model of Python `f-string` formatting `{t/10:.1f}` for an integer number
of tenths `t` (exact to one decimal, so the float rounding reproduces it). -/
def fmtTenths (t : Int) : String :=
  if t < 0 then "-" ++ fmtTenthsAbs t.natAbs else fmtTenthsAbs t.natAbs

/-- Embedding of `money(tenths)`. -/
def money (tenths : Int) : String := "£" ++ fmtTenths tenths ++ "m"

/-- One current observation from the feed: `players[pid] = (web_name, now_cost, team_id)`
flattened together with its dict key `pid`. -/
structure Obs where
  pid : Int
  name : String
  cost : Int
  teamId : Int
deriving DecidableEq

/-- One change record, as built in `main` of `price_diff.py`. -/
structure Chg where
  pid : Int
  name : String
  team : String
  old : Int
  new : Int
  delta : Int
  own : Rat
deriving DecidableEq

/-- The change record `main` appends for player `p` with previous price `old`.
`teams` models the `team_short` dict (`.get(team_id, "")`), `own` models the
`ownership` dict (`.get(pid, 0.0)`) as a total function. -/
def mkChg (teams : List (Int × String)) (own : Int → Rat) (p : Obs) (old : Int) : Chg :=
  ⟨p.pid, p.name, (teams.lookup p.teamId).getD "", old, p.cost, p.cost - old, own p.pid⟩

/-- Loop body of `main`: `old = prev.get(str(pid)); if old is not None and old != cost`. -/
def emitChange (prev : List (String × Int)) (teams : List (Int × String)) (own : Int → Rat)
    (p : Obs) : Option Chg :=
  match prev.lookup (strOfInt p.pid) with
  | none => none
  | some old => if old ≠ p.cost then some (mkChg teams own p old) else none

/-- The `changes` list accumulated by `main` over the current players. -/
def changesOf (players : List Obs) (prev : List (String × Int))
    (teams : List (Int × String)) (own : Int → Rat) : List Chg :=
  players.filterMap (emitChange prev teams own)

/-- The sort key used in `main`: `key=lambda x: (-x.get("ownership", 0.0), x["name"].lower())`,
as a non-strict total preorder (`a` may come before `b`). -/
def keyLE (a b : Chg) : Prop :=
  b.own < a.own ∨ (a.own = b.own ∧ strLe (lowerStr a.name) (lowerStr b.name))

instance : DecidableRel keyLE := fun a b =>
  inferInstanceAs (Decidable (b.own < a.own ∨ (a.own = b.own ∧ strLe (lowerStr a.name) (lowerStr b.name))))

instance : IsTotal Chg keyLE where
  total a b := by
    rcases lt_trichotomy a.own b.own with h | h | h
    · exact Or.inr (Or.inl h)
    · rcases le_total (lowerStr a.name).data (lowerStr b.name).data with hn | hn
      · exact Or.inl (Or.inr ⟨h, hn⟩)
      · exact Or.inr (Or.inr ⟨h.symm, hn⟩)
    · exact Or.inl (Or.inl h)

instance : IsTrans Chg keyLE where
  trans a b c hab hbc := by
    rcases hab with hab | ⟨hab, hab'⟩ <;> rcases hbc with hbc | ⟨hbc, hbc'⟩
    · exact Or.inl (lt_trans hbc hab)
    · exact Or.inl (hbc ▸ hab)
    · exact Or.inl (hab ▸ hbc)
    · exact Or.inr ⟨hab.trans hbc, le_trans hab' hbc'⟩

/-- Embedding of the `risers` list of `main` (`sorted` is modelled by a sort
producing a list sorted for the same key order and a permutation of its input). -/
def risersOf (players : List Obs) (prev : List (String × Int))
    (teams : List (Int × String)) (own : Int → Rat) : List Chg :=
  List.insertionSort keyLE
    ((changesOf players prev teams own).filter (fun c => decide (0 < c.delta)))

/-- Embedding of the `fallers` list of `main`. -/
def fallersOf (players : List Obs) (prev : List (String × Int))
    (teams : List (Int × String)) (own : Int → Rat) : List Chg :=
  List.insertionSort keyLE
    ((changesOf players prev teams own).filter (fun c => decide (c.delta < 0)))

/-! ### price_diff.py: Telegram message (build_lines and the trimming loop) -/

/-- One riser bullet of `build_lines`. -/
def riserLine (c : Chg) : String :=
  "• <b>" ++ c.name ++ "</b> (" ++ c.team ++ "): +" ++ fmtTenths c.delta ++ "m → " ++ money c.new

/-- One faller bullet of `build_lines` (the sign comes from the value itself). -/
def fallerLine (c : Chg) : String :=
  "• <b>" ++ c.name ++ "</b> (" ++ c.team ++ "): " ++ fmtTenths c.delta ++ "m → " ++ money c.new

/-- Embedding of `build_lines(risers, fallers)`. -/
def buildLines (risers fallers : List Chg) : List String :=
  (if risers = [] then [] else "📈 <b>Risers</b>" :: risers.map riserLine) ++
  (if fallers = [] then []
   else (if risers = [] then [] else [""]) ++ ("📉 <b>Fallers</b>" :: fallers.map fallerLine))

/-- Embedding of the local `assemble(lines_list, hidden_count)` of `main`. -/
def assembleTG (head : String) (lines : List String) (hidden : Nat) : String :=
  head ++ joinNL lines ++ (if hidden > 0 then "\n\n(+" ++ Nat.repr hidden ++ " more)" else "")

/-- Embedding of the Telegram trimming `while` loop of `main`, returning the
final `(lines, hidden)` state at the `break`.  The fuel argument is always
called with `lines.length + 1`; every recursive call removes at least one
element of `lines`, so the fuel-zero branch is unreachable. -/
def trimTGAux (head : String) : Nat → List String → Nat → List String × Nat
  | 0, lines, hidden => (lines, hidden)
  | fuel + 1, lines, hidden =>
    if (assembleTG head lines hidden).length ≤ SAFE_BUDGET ∨ lines = [] then
      (lines, hidden)
    else
      let removed := lines.getLastD ""
      let hidden' :=
        if removed ≠ "" ∧ ¬(startsWithStr removed "📈" = true ∨ startsWithStr removed "📉" = true)
        then hidden + 1 else hidden
      if removed = "" ∧ lines.dropLast ≠ [] then
        trimTGAux head fuel lines.dropLast.dropLast hidden'
      else
        trimTGAux head fuel lines.dropLast hidden'

/-- The final Telegram message `tg` produced by the trimming loop. -/
def trimTG (head : String) (lines : List String) : String :=
  assembleTG head (trimTGAux head (lines.length + 1) lines 0).1
    (trimTGAux head (lines.length + 1) lines 0).2

/-! ### price_diff.py: X chunking (build_x_chunks) -/

/-- The section title line `f"{emoji} {title}:"` of the first chunk. -/
def titleLineOf (emoji title : String) : String := emoji ++ " " ++ title ++ ":"

/-- The continuation header `f"{emoji} {title} (cont.)"`. -/
def contHeaderOf (emoji title : String) : String := emoji ++ " " ++ title ++ " (cont.)"

/-- One bullet `f"• {c['name']} ({c['team']}) {money(c['new'])}"`. -/
def bulletOf (c : Chg) : String := "• " ++ c.name ++ " (" ++ c.team ++ ") " ++ money c.new

/-- The local `text_len(lines)` of `build_x_chunks`. -/
def textLen (lines : List String) : Nat := (rstripStr (joinNL lines)).length

/-- The `for` loop of `build_x_chunks`, carrying `current_lines`; the final
`if current_lines: chunks.append(...)` always fires because `current_lines`
is never empty. -/
def buildXGo (emoji title : String) : List String → List Chg → List (List String)
  | current, [] => [current]
  | current, c :: rest =>
    let bullet := bulletOf c
    let cand := current ++ [bullet]
    if textLen cand ≤ X_MAX_LEN then buildXGo emoji title cand rest
    else current :: buildXGo emoji title [contHeaderOf emoji title, bullet] rest

/-- Embedding of `build_x_chunks`, at the granularity of line lists
(one list of lines per chunk). -/
def buildXChunksLines (headerText title emoji : String) (items : List Chg) :
    List (List String) :=
  if items = [] then []
  else buildXGo emoji title [headerText, "", titleLineOf emoji title] items

/-- Embedding of `build_x_chunks` (each chunk is `"\n".join(lines).rstrip()`). -/
def buildXChunks (headerText title emoji : String) (items : List Chg) : List String :=
  (buildXChunksLines headerText title emoji items).map (fun ls => rstripStr (joinNL ls))

/-- Bullet lines of the tail chunks: each later chunk drops its single
continuation-header line. -/
def restBullets (chs : List (List String)) : List String :=
  (chs.map (fun ls => ls.drop 1)).flatten

/-- Bullet lines of a chunk list whose first chunk has a `k`-line header block. -/
def chunksBullets (k : Nat) : List (List String) → List String
  | [] => []
  | first :: rest => first.drop k ++ restBullets rest

/-! ### price_diff.py: snapshot store -/

/-- Content of one snapshot file: the dict `{str(pid): cost}`. -/
abbrev Snap := List (String × Int)

/-- A snapshot directory: file name paired with file content. -/
abbrev SnapStore := List (String × Snap)

/-- Filesystem write with truncation: creating the file if absent,
replacing its content if present. -/
def fsWrite (key : String) (content : Snap) (store : SnapStore) : SnapStore :=
  store.filter (fun p => decide (p.1 ≠ key)) ++ [(key, content)]

/-- Order on directory entries by file name, as `sorted(SNAP_DIR.glob("*.json"))`. -/
def snapLe (p q : String × Snap) : Prop := strLe p.1 q.1

instance : DecidableRel snapLe := fun p q =>
  inferInstanceAs (Decidable (strLe p.1 q.1))

instance : IsTotal (String × Snap) snapLe where
  total p q := le_total p.1.data q.1.data

instance : IsTrans (String × Snap) snapLe where
  trans _ _ _ h h' := le_trans h h'

instance : IsRefl (String × Snap) snapLe where
  refl p := le_refl p.1.data

/-- Embedding of `load_latest_snapshot`: sort the directory entries by name
and read the last one, or return the empty mapping. -/
def loadLatestSnapshot (store : SnapStore) : Snap :=
  match (List.insertionSort snapLe store).getLast? with
  | none => []
  | some p => p.2

/-- Embedding of the `comp = {str(pid): cost ...}` reduction of `save_snapshot`. -/
def savedSnap (players : List Obs) : Snap :=
  players.map (fun p => (strOfInt p.pid, p.cost))

/-- One run's snapshot interaction, in the order `main` performs it:
`prev = load_latest_snapshot()` and then `save_snapshot` writing
`f"{date}.json"`.  Returns the loaded mapping and the updated directory. -/
def runSnapshotStep (store : SnapStore) (dateStr : String) (players : List Obs) :
    Snap × SnapStore :=
  (loadLatestSnapshot store, fsWrite (dateStr ++ ".json") (savedSnap players) store)

/-! ### price_diff.py: feed parsing (fetch_prices) and run outcome -/

/-- One entry of `data["teams"]`; `none` fields model a missing key or a
value on which the conversion in `fetch_prices` raises. -/
structure RawTeam where
  id : Option Int
  short_name : Option String
deriving DecidableEq

/-- One entry of `data["elements"]`; the `selected_by_percent` field already
carries the result of the guarded `float(...)` parse, whose failures are
swallowed to `0.0` in the source, hence `Option` with a default. -/
structure RawElement where
  id : Option Int
  web_name : Option String
  now_cost : Option Int
  team : Option Int
  selected_by_percent : Option Rat
deriving DecidableEq

/-- The decoded upstream JSON document, restricted to the keys
`fetch_prices` touches; `none` models a missing key. -/
structure FeedData where
  teams : Option (List RawTeam)
  elements : Option (List RawElement)
deriving DecidableEq

/-- Parse of one team entry: `int(t["id"]): t["short_name"]`, raising on a
missing or unconvertible field. -/
def parseTeam (t : RawTeam) : Except String (Int × String) :=
  match t.id, t.short_name with
  | some i, some s => Except.ok (i, s)
  | _, _ => Except.error "malformed team entry"

/-- Parse of one element entry: the four required fields raise when missing
or unconvertible; ownership falls back to `0.0`. -/
def parseElement (e : RawElement) : Except String (Obs × Rat) :=
  match e.id, e.web_name, e.now_cost, e.team with
  | some pid, some name, some cost, some team =>
      Except.ok (⟨pid, name, cost, team⟩, e.selected_by_percent.getD 0)
  | _, _, _, _ => Except.error "malformed element entry"

/-- Sequential parse of a list, stopping at the first raising entry, as the
`for` loops of `fetch_prices` do. -/
def traverseE {α β : Type} (f : α → Except String β) : List α → Except String (List β)
  | [] => Except.ok []
  | a :: t =>
    match f a with
    | Except.error e => Except.error e
    | Except.ok b =>
      match traverseE f t with
      | Except.error e => Except.error e
      | Except.ok bs => Except.ok (b :: bs)

/-- Embedding of `fetch_prices`: returns the players, the team-name mapping
and the ownership mapping, or the first exception raised. -/
def fetchPrices (d : FeedData) :
    Except String (List Obs × List (Int × String) × List (Int × Rat)) :=
  match d.teams with
  | none => Except.error "KeyError: teams"
  | some ts =>
    match traverseE parseTeam ts with
    | Except.error e => Except.error e
    | Except.ok teamPairs =>
      match d.elements with
      | none => Except.error "KeyError: elements"
      | some es =>
        match traverseE parseElement es with
        | Except.error e => Except.error e
        | Except.ok parsed =>
          Except.ok (parsed.map Prod.fst, teamPairs,
            parsed.map (fun pr => (pr.1.pid, pr.2)))

/-- Exit status of the run with respect to feed parsing: the `__main__`
wrapper catches any exception and exits 1, otherwise the run exits 0. -/
def mainExitCode (d : FeedData) : Nat :=
  match fetchPrices d with
  | Except.error _ => 1
  | Except.ok _ => 0

/-! ### post_to_x.py: challenge detection and the retry loop -/

/-- Embedding of `looks_like_cloudflare(resp_text)`. -/
def looksLikeCloudflare (respText : String) : Bool :=
  if respText = "" then false
  else
    let t := lowerStr (lstripStr respText)
    if startsWithStr t "<!doctype html" || startsWithStr t "<html" then
      containsSub "just a moment" t || containsSub "cf_chl" t ||
        containsSub "challenge" t || containsSub "cloudflare" t
    else false

/-- The fixed backoff schedule of `post_with_retries`. -/
def backoffs : List Nat := [2, 5, 10, 20, 30]

/-- The retryable HTTP status codes of `post_with_retries`. -/
def retrySet : List Nat := [429, 500, 502, 503, 504]

/-- An endpoint response: status code and body text.  A session is modelled
as the stream of responses it returns, indexed by the overall call count. -/
abbrev Resp := Nat × String

/-- The `for attempt in range(1, max_attempts + 1)` loop of
`post_with_retries`.  `attempt` is the 1-based attempt number, the second
argument the number of attempts still allowed; the result is the number of
the final attempt, the list of backoff waits slept, and the final response
(`last_status, last_text`).  The fuel-zero branch is unreachable because
the loop is always entered with a positive attempt budget. -/
def postLoop (sess : Nat → Resp) : Nat → Nat → Nat × List Nat × Resp
  | _, 0 => (0, [], (0, ""))
  | attempt, r + 1 =>
    let resp := sess attempt
    let wait := backoffs.getD (min (attempt - 1) (backoffs.length - 1)) 0
    let retried :=
      if r = 0 then (attempt, [wait], resp)
      else
        let next := postLoop sess (attempt + 1) r
        (next.1, wait :: next.2.1, next.2.2)
    if looksLikeCloudflare resp.2 then retried
    else if resp.1 ∈ retrySet then retried
    else (attempt, [], resp)

/-- Embedding of `post_with_retries(session, payload, label, idx, max_attempts=5)`
for a given response stream (the payload does not influence the control flow). -/
def postWithRetries (sess : Nat → Resp) : Nat × List Nat × Resp :=
  postLoop sess 1 5

/-- The same loop with the session stream consumed from offset `off`
(attempt `i` of this call reads the stream at `off + i`). -/
def postWithRetriesFrom (sess : Nat → Resp) (off : Nat) : Nat × List Nat × Resp :=
  postLoop (fun i => sess (off + i)) 1 5

/-- The retry condition of the loop body, as a proposition. -/
def Retryable (r : Resp) : Prop :=
  looksLikeCloudflare r.2 = true ∨ r.1 ∈ retrySet

instance (r : Resp) : Decidable (Retryable r) :=
  inferInstanceAs (Decidable (looksLikeCloudflare r.2 = true ∨ r.1 ∈ retrySet))

/-! ### post_to_x.py: thread posting -/

/-- The JSON payload for one tweet: text plus the optional
`reply.in_reply_to_tweet_id` reference. -/
structure Payload where
  text : String
  reply : Option String
deriving DecidableEq

/-- Record of one posted chunk: the payload sent and the final response of
its retry loop. -/
structure Posted where
  payload : Payload
  status : Nat
  body : String
deriving DecidableEq

/-- Embedding of the `while` loop of `post_thread`.  `files` holds the
contents of the consecutive chunk files that exist (the loop stops at the
first missing index); `parseId` models `json.loads(body)["data"]["id"]`
returning `none` when the body does not parse or carries no id; `off` is
how many session responses earlier posts consumed.  Returns
`Except.error` for the hard-fail `raise`, otherwise the thread outcome
flag (`post_thread`'s return value), the posted chunks in order, and the
updated session offset. -/
def postThreadAux (parseId : String → Option String) (sess : Nat → Resp) (softFail : Bool) :
    List String → Nat → Option String → Except String (Bool × List Posted × Nat)
  | [], off, _ => Except.ok (true, [], off)
  | fileText :: rest, off, parent =>
    let text := stripStr fileText
    if text = "" then postThreadAux parseId sess softFail rest off parent
    else
      let payload : Payload := ⟨text, parent⟩
      let res := postWithRetriesFrom sess off
      let fin := res.2.2
      if 400 ≤ fin.1 then
        if softFail then Except.ok (false, [⟨payload, fin.1, fin.2⟩], off + res.1)
        else Except.error ("chunk failed: " ++ Nat.repr fin.1)
      else
        let parent' := match parseId fin.2 with
          | some v => some v
          | none => parent
        match postThreadAux parseId sess softFail rest (off + res.1) parent' with
        | Except.error e => Except.error e
        | Except.ok (b, ps, off') => Except.ok (b, ⟨payload, fin.1, fin.2⟩ :: ps, off')

/-- Embedding of `main` of `post_to_x.py`: post the fallers thread first
(soft-fail per configuration), then the risers thread with `soft_fail=True`
additionally wrapped in `try/except`, so the risers thread never raises. -/
def mainPost (parseId : String → Option String) (sess : Nat → Resp) (softFailFallers : Bool)
    (fallerFiles riserFiles : List String) :
    Except String ((Bool × List Posted × Nat) × Option (Bool × List Posted × Nat)) :=
  match postThreadAux parseId sess softFailFallers fallerFiles 0 none with
  | Except.error e => Except.error e
  | Except.ok fres =>
    match postThreadAux parseId sess true riserFiles fres.2.2 none with
    | Except.ok rres => Except.ok (fres, some rres)
    | Except.error _ => Except.ok (fres, none)

instance {e a : Type} [DecidableEq e] [DecidableEq a] : DecidableEq (Except e a) := fun x y =>
  match x, y with
  | Except.error u, Except.error v =>
    if h : u = v then isTrue (by rw [h]) else isFalse (fun hh => h (by injection hh))
  | Except.error _, Except.ok _ => isFalse (fun hh => Except.noConfusion hh)
  | Except.ok _, Except.error _ => isFalse (fun hh => Except.noConfusion hh)
  | Except.ok u, Except.ok v =>
    if h : u = v then isTrue (by rw [h]) else isFalse (fun hh => h (by injection hh))

/-! ### Concrete inputs used by the claim theorems, counterexamples and witnesses -/

/-- Concrete players for the diff-engine witness (the spec's own example:
Alice rose from 6.5 to 7.0, Bob is unchanged). -/
def c1Players : List Obs := [⟨1, "Alice", 70, 1⟩, ⟨2, "Bob", 55, 1⟩]

/-- Previous snapshot for the diff-engine witness. -/
def c1Prev : List (String × Int) := [("1", 65), ("2", 55)]

/-- Team mapping for the diff-engine witness. -/
def c1Teams : List (Int × String) := [(1, "ARS")]

/-- Ownership signal for the diff-engine witness. -/
def c1Own : Int → Rat := fun _ => 0

/-- A 3800-character player name: long enough that the one faller bullet
pushes the assembled Telegram message over the 3900 budget by itself. -/
def longName : String := ⟨List.replicate 3800 'a'⟩

/-- The single riser of the Telegram-trimming failing input. -/
def c2Riser : Chg := ⟨1, "Alice", "ARS", 50, 51, 1, 0⟩

/-- The single faller of the Telegram-trimming failing input; its bullet
line alone exceeds the message budget. -/
def c2Faller : Chg := ⟨2, longName, "CHE", 60, 59, -1, 0⟩

/-- The Telegram head line built by `main` for one riser and one faller. -/
def c2Head : String := "<b>FPL Price Changes — GW8 — 11-10-2026 (Risers: 1, Fallers: 1)</b>\n\n"

/-- The full untrimmed Telegram line list of the failing input. -/
def c2Lines : List String := buildLines [c2Riser] [c2Faller]

/-- The failing input's line list written out (the faller bullet is last). -/
def c2L : List String :=
  ["📈 <b>Risers</b>", "• <b>Alice</b> (ARS): +0.1m → £5.1m", "", "📉 <b>Fallers</b>",
    fallerLine c2Faller]

/-- A change record whose name is 300 characters, so its X bullet alone
exceeds the 255 per-chunk budget. -/
def c4Item : Chg := ⟨1, ⟨List.replicate 300 'b'⟩, "ARS", 50, 50, 0, 0⟩

/-- A change record of ordinary size for the chunking witness. -/
def c4wItem : Chg := ⟨1, "Salah", "LIV", 125, 126, 1, 0⟩

/-- Directory contents after a first run on 2025-10-11 saw price 50. -/
def c5Store1 : SnapStore := (runSnapshotStep [] "2025-10-11" [⟨1, "Alice", 50, 1⟩]).2

/-- A second run on the same date seeing price 60. -/
def c5Run2 : Snap × SnapStore := runSnapshotStep c5Store1 "2025-10-11" [⟨1, "Alice", 60, 1⟩]

/-- A store holding one strictly older snapshot, for the snapshot witness. -/
def c5wStore : SnapStore := [("2025-10-10.json", [("1", (50 : Int))])]

/-- Well-formedness of a team entry: both required keys present and convertible. -/
def wfTeam (t : RawTeam) : Prop := t.id.isSome = true ∧ t.short_name.isSome = true

/-- Well-formedness of an element entry: the four required keys present and
convertible. -/
def wfElement (e : RawElement) : Prop :=
  e.id.isSome = true ∧ e.web_name.isSome = true ∧ e.now_cost.isSome = true ∧ e.team.isSome = true

/-- A Cloudflare interstitial body, as `looks_like_cloudflare` detects it. -/
def cfBody : String := "<!DOCTYPE html><html>Just a moment</html>"

/-- An endpoint that serves the challenge page twice and then succeeds. -/
def c7CfTwice : Nat → Resp := fun i => if i ≤ 2 then (200, cfBody) else (201, "ok")

/-- An endpoint that always answers with a permanent 403. -/
def c7Perm403 : Nat → Resp := fun _ => (403, "forbidden")

/-- A body parser recognising the success body `"ok1"`, for the linkage witness. -/
def c8Parse : String → Option String := fun s => if s = "ok1" then some "111" else none

/-- An endpoint that always succeeds, for the linkage witness. -/
def c8Sess : Nat → Resp := fun _ => (201, "ok1")

/-- The two posted chunks of the linkage witness: the second replies to the
identifier parsed from the first response. -/
def c8Ps : List Posted :=
  [⟨⟨"hello", none⟩, 201, "ok1"⟩, ⟨⟨"world", some "111"⟩, 201, "ok1"⟩]

/-- Body parser for the soft-fail witness. -/
def c9Parse : String → Option String := fun s => if s = "ok1" then some "111" else none

/-- An endpoint whose first response succeeds and whose later responses are
permanent 403s, so the fallers thread succeeds and the risers thread fails. -/
def c9Sess : Nat → Resp := fun i => if i ≤ 1 then (201, "ok1") else (403, "no")

/-! ### Helper lemmas and claim theorems -/

lemma strData_append (a b : String) : (a ++ b).data = a.data ++ b.data := rfl

lemma strLen_append (a b : String) : (a ++ b).length = a.length + b.length := by
  cases a with | mk la =>
  cases b with | mk lb =>
  show (la ++ lb).length = la.length + lb.length
  exact la.length_append lb

lemma longName_len : longName.length = 3800 := by
  have h : longName.length = (List.replicate 3800 'a').length := rfl
  rw [h, List.length_replicate]

lemma fallerLine_c2_len : (fallerLine c2Faller).length = 3830 := by
  simp only [fallerLine, c2Faller]
  rw [show fmtTenths (-1) = "-0.1" from by decide, show money 59 = "£5.9m" from by decide]
  simp only [strLen_append, longName_len]
  decide

lemma c2Lines_eq : c2Lines = c2L := by
  simp [c2Lines, c2L, buildLines]
  decide

lemma c2_assemble_len : (assembleTG c2Head c2L 0).length = 3969 := by
  simp only [assembleTG, c2L, joinNL]
  rw [if_neg (by decide : ¬ ((0:Nat) > 0))]
  simp only [strLen_append, fallerLine_c2_len]
  decide

lemma fallerLine_c2_ne : fallerLine c2Faller ≠ "" := by
  intro h
  have h' := fallerLine_c2_len
  rw [h] at h'
  exact absurd h' (by decide)

lemma trimTGAux_succ (head : String) (fuel : Nat) (lines : List String) (hidden : Nat) :
    trimTGAux head (fuel + 1) lines hidden =
      if (assembleTG head lines hidden).length ≤ SAFE_BUDGET ∨ lines = [] then (lines, hidden)
      else
        if lines.getLastD "" = "" ∧ lines.dropLast ≠ [] then
          trimTGAux head fuel lines.dropLast.dropLast
            (if lines.getLastD "" ≠ "" ∧
                ¬(startsWithStr (lines.getLastD "") "📈" = true ∨
                  startsWithStr (lines.getLastD "") "📉" = true)
             then hidden + 1 else hidden)
        else
          trimTGAux head fuel lines.dropLast
            (if lines.getLastD "" ≠ "" ∧
                ¬(startsWithStr (lines.getLastD "") "📈" = true ∨
                  startsWithStr (lines.getLastD "") "📉" = true)
             then hidden + 1 else hidden) := rfl

lemma c2_start_f1 : startsWithStr (fallerLine c2Faller) "📈" = false := by decide

lemma c2_start_f2 : startsWithStr (fallerLine c2Faller) "📉" = false := by decide

set_option maxRecDepth 4000 in
lemma c2_step :
    trimTGAux c2Head (c2L.length + 1) c2L 0 =
      (["📈 <b>Risers</b>", "• <b>Alice</b> (ARS): +0.1m → £5.1m", "", "📉 <b>Fallers</b>"], 1) := by
  have hns : ¬(startsWithStr (fallerLine c2Faller) "📈" = true ∨
      startsWithStr (fallerLine c2Faller) "📉" = true) := by
    intro h
    rcases h with h | h
    · rw [c2_start_f1] at h
      exact absurd h (by decide)
    · rw [c2_start_f2] at h
      exact absurd h (by decide)
  have hbig : ¬((assembleTG c2Head c2L 0).length ≤ SAFE_BUDGET ∨ c2L = []) := by
    intro h
    rcases h with h | h
    · rw [c2_assemble_len] at h
      exact absurd h (by decide)
    · simp [c2L] at h
  have hfuel : c2L.length + 1 = 5 + 1 := by simp [c2L]
  rw [hfuel, trimTGAux_succ, if_neg hbig]
  rw [show c2L.getLastD "" = fallerLine c2Faller from rfl]
  rw [if_neg (fun h => fallerLine_c2_ne h.1)]
  rw [if_pos ⟨fallerLine_c2_ne, hns⟩]
  rw [show c2L.dropLast =
        ["📈 <b>Risers</b>", "• <b>Alice</b> (ARS): +0.1m → £5.1m", "", "📉 <b>Fallers</b>"]
      from rfl]
  decide

lemma trimTGAux_le (head : String) :
    ∀ (fuel : Nat) (lines : List String) (hidden : Nat), lines.length < fuel →
    (∀ h : Nat, h ≤ hidden + lines.length → (assembleTG head [] h).length ≤ SAFE_BUDGET) →
    (assembleTG head (trimTGAux head fuel lines hidden).1
      (trimTGAux head fuel lines hidden).2).length ≤ SAFE_BUDGET := by
  intro fuel
  induction fuel with
  | zero => intro lines hidden hlt _; exact absurd hlt (by omega)
  | succ fuel ih =>
    intro lines hidden hlt hbound
    rw [trimTGAux_succ]
    by_cases hc : (assembleTG head lines hidden).length ≤ SAFE_BUDGET ∨ lines = []
    · rw [if_pos hc]
      rcases hc with hc | hc
      · exact hc
      · subst hc
        exact hbound hidden (by simp)
    · rw [if_neg hc]
      push_neg at hc
      have hpos : 0 < lines.length := List.length_pos.mpr hc.2
      have hd1 := List.length_dropLast lines
      by_cases hd : lines.getLastD "" = "" ∧ lines.dropLast ≠ []
      · rw [if_pos hd]
        have hh : (if lines.getLastD "" ≠ "" ∧
            ¬(startsWithStr (lines.getLastD "") "📈" = true ∨
              startsWithStr (lines.getLastD "") "📉" = true)
            then hidden + 1 else hidden) = hidden := by
          rw [if_neg]
          intro h
          exact h.1 hd.1
        rw [hh]
        have hd2 := List.length_dropLast lines.dropLast
        apply ih
        · omega
        · intro h hh'
          apply hbound
          omega
      · rw [if_neg hd]
        have hsplit : (if lines.getLastD "" ≠ "" ∧
            ¬(startsWithStr (lines.getLastD "") "📈" = true ∨
              startsWithStr (lines.getLastD "") "📉" = true)
            then hidden + 1 else hidden) ≤ hidden + 1 := by
          split <;> omega
        apply ih
        · omega
        · intro h hh'
          apply hbound
          generalize hg : (if lines.getLastD "" ≠ "" ∧
            ¬(startsWithStr (lines.getLastD "") "📈" = true ∨
              startsWithStr (lines.getLastD "") "📉" = true)
            then hidden + 1 else hidden) = k at hsplit hh'
          omega

/-- Claim C3: whenever the fixed head plus the trailer fits within the
budget on its own (which holds for every head `main` builds), the message
produced by the trimming loop has length at most `SAFE_BUDGET = 3900`; and
an initially fitting message is returned unchanged, with no line removed
and no trailer appended. -/
theorem c3_trim_bounded (head : String) (lines : List String)
    (hhead : ∀ h : Nat, h ≤ lines.length → (assembleTG head [] h).length ≤ SAFE_BUDGET) :
    (trimTG head lines).length ≤ SAFE_BUDGET ∧
    ((assembleTG head lines 0).length ≤ SAFE_BUDGET → trimTG head lines = assembleTG head lines 0) := by
  constructor
  · unfold trimTG
    exact trimTGAux_le head (lines.length + 1) lines 0 (by omega) (by simpa using hhead)
  · intro hfit
    unfold trimTG
    rw [trimTGAux_succ, if_pos (Or.inl hfit)]

/-- Witness for C3 at a concrete short head and line list. -/
theorem c3_trim_bounded_witness :
    (∀ h : Nat, h ≤ (["x"] : List String).length → (assembleTG "H" [] h).length ≤ SAFE_BUDGET) ∧
    ((trimTG "H" ["x"]).length ≤ SAFE_BUDGET ∧
      ((assembleTG "H" ["x"] 0).length ≤ SAFE_BUDGET → trimTG "H" ["x"] = assembleTG "H" ["x"] 0)) :=
  ⟨by decide, c3_trim_bounded "H" ["x"] (by decide)⟩

lemma buildXGo_ne_nil (emoji title : String) (items : List Chg) (current : List String) :
    buildXGo emoji title current items ≠ [] := by
  induction items generalizing current with
  | nil => simp [buildXGo]
  | cons c rest ih =>
    rw [buildXGo]
    split
    · exact ih _
    · simp

lemma restBullets_eq (chs : List (List String)) : restBullets chs = chunksBullets 1 chs := by
  cases chs with
  | nil => rfl
  | cons f r => rfl

lemma buildXGo_bullets (emoji title : String) :
    ∀ (items : List Chg) (current : List String) (k : Nat), k ≤ current.length →
    chunksBullets k (buildXGo emoji title current items) =
      current.drop k ++ items.map bulletOf := by
  intro items
  induction items with
  | nil =>
    intro current k hk
    simp [buildXGo, chunksBullets, restBullets]
  | cons c rest ih =>
    intro current k hk
    rw [buildXGo]
    split
    · rw [ih (current ++ [bulletOf c]) k (by simp; omega)]
      rw [List.drop_append_of_le_length hk]
      simp
    · have hne := buildXGo_ne_nil emoji title rest [contHeaderOf emoji title, bulletOf c]
      rw [show chunksBullets k (current :: buildXGo emoji title [contHeaderOf emoji title, bulletOf c] rest) =
            current.drop k ++ restBullets (buildXGo emoji title [contHeaderOf emoji title, bulletOf c] rest)
          from rfl]
      rw [restBullets_eq, ih [contHeaderOf emoji title, bulletOf c] 1 (by simp)]
      simp

lemma buildXGo_len (emoji title : String) :
    ∀ (items : List Chg) (current : List String), textLen current ≤ X_MAX_LEN →
    (∀ c ∈ items, textLen [contHeaderOf emoji title, bulletOf c] ≤ X_MAX_LEN) →
    ∀ ls ∈ buildXGo emoji title current items, textLen ls ≤ X_MAX_LEN := by
  intro items
  induction items with
  | nil =>
    intro current hcur _ ls hls
    simp [buildXGo] at hls
    subst hls
    exact hcur
  | cons c rest ih =>
    intro current hcur hb ls hls
    rw [buildXGo] at hls
    split at hls
    · exact ih _ (by assumption) (fun d hd => hb d (List.mem_cons_of_mem _ hd)) ls hls
    · rcases List.mem_cons.mp hls with h | h
      · subst h
        exact hcur
      · exact ih _ (hb c (List.mem_cons_self c rest)) (fun d hd => hb d (List.mem_cons_of_mem _ hd)) ls h

lemma mem_data_append_left (a b : String) (c : Char) (h : c ∈ a.data) : c ∈ (a ++ b).data := by
  rw [strData_append]
  exact List.mem_append_left _ h

lemma mem_data_append_right (a b : String) (c : Char) (h : c ∈ b.data) : c ∈ (a ++ b).data := by
  rw [strData_append]
  exact List.mem_append_right _ h

lemma mem_data_joinNL (c : Char) :
    ∀ (ls : List String) (l : String), l ∈ ls → c ∈ l.data → c ∈ (joinNL ls).data := by
  intro ls
  induction ls with
  | nil => intro l hl; simp at hl
  | cons s rest ih =>
    intro l hl hc
    cases rest with
    | nil =>
      simp at hl
      subst hl
      exact hc
    | cons t r =>
      rcases List.mem_cons.mp hl with h | h
      · subst h
        rw [joinNL]
        exact mem_data_append_left _ _ _ (mem_data_append_left _ _ _ hc)
      · rw [joinNL]
        exact mem_data_append_right _ _ _ (ih l h hc)

lemma rstrip_ne_empty (s : String) (c : Char) (hc : c ∈ s.data) (hw : c.isWhitespace = false) :
    rstripStr s ≠ "" := by
  intro h
  have hdata : ((s.data.reverse.dropWhile Char.isWhitespace).reverse : List Char) = [] := by
    have := congrArg String.data h
    simpa [rstripStr] using this
  rw [List.reverse_eq_nil_iff] at hdata
  rw [List.dropWhile_eq_nil_iff] at hdata
  have := hdata c (List.mem_reverse.mpr hc)
  rw [hw] at this
  exact absurd this (by decide)

lemma buildXGo_has_ink (emoji title : String) :
    ∀ (items : List Chg) (current : List String),
    (∃ l ∈ current, ∃ c ∈ l.data, c.isWhitespace = false) →
    ∀ ls ∈ buildXGo emoji title current items,
      ∃ l ∈ ls, ∃ c ∈ l.data, c.isWhitespace = false := by
  intro items
  induction items with
  | nil =>
    intro current hcur ls hls
    simp [buildXGo] at hls
    subst hls
    exact hcur
  | cons c rest ih =>
    intro current hcur ls hls
    rw [buildXGo] at hls
    split at hls
    · refine ih _ ?_ ls hls
      obtain ⟨l, hl, hc⟩ := hcur
      exact ⟨l, List.mem_append_left _ hl, hc⟩
    · rcases List.mem_cons.mp hls with h | h
      · subst h
        exact hcur
      · refine ih _ ?_ ls h
        refine ⟨contHeaderOf emoji title, by simp, ')', ?_, by decide⟩
        show ')' ∈ (emoji ++ " " ++ title ++ " (cont.)").data
        exact mem_data_append_right _ _ _ (by decide)

/-- Claim C4 (amended): for every header, title, emoji and item list,
concatenating the bullet lines of the chunks of `build_x_chunks` (dropping
the three header lines of the first chunk and the continuation header of
each later chunk) reproduces the item bullet sequence in order with no
omissions or duplicates — so every bullet, an oversized one included, is
emitted verbatim — and no chunk is ever emitted empty; both hold
unconditionally.  Provided the initial header block fits in
`X_MAX_LEN = 255` and each bullet together with the continuation header
fits in 255, every chunk's length is at most 255. -/
theorem c4_chunks_amended (headerText title emoji : String) (items : List Chg) :
    chunksBullets 3 (buildXChunksLines headerText title emoji items) = items.map bulletOf ∧
    (∀ ch ∈ buildXChunks headerText title emoji items, ch ≠ "") ∧
    (textLen [headerText, "", titleLineOf emoji title] ≤ X_MAX_LEN →
      (∀ c ∈ items, textLen [contHeaderOf emoji title, bulletOf c] ≤ X_MAX_LEN) →
      ∀ ch ∈ buildXChunks headerText title emoji items, ch.length ≤ X_MAX_LEN) := by
  refine ⟨?_, ?_, ?_⟩
  · unfold buildXChunksLines
    split
    · simp [chunksBullets]
      assumption
    · rw [buildXGo_bullets emoji title items _ 3 (by simp)]
      simp
  · intro ch hch
    unfold buildXChunks at hch
    obtain ⟨ls, hls, rfl⟩ := List.mem_map.mp hch
    unfold buildXChunksLines at hls
    split at hls
    · simp at hls
    · have hink : ∃ l ∈ ls, ∃ c ∈ l.data, c.isWhitespace = false := by
        refine buildXGo_has_ink emoji title items _ ?_ ls hls
        refine ⟨titleLineOf emoji title, by simp, ':', ?_, by decide⟩
        show ':' ∈ (emoji ++ " " ++ title ++ ":").data
        exact mem_data_append_right _ _ _ (by decide)
      obtain ⟨l, hl, c, hc, hw⟩ := hink
      exact rstrip_ne_empty _ c (mem_data_joinNL c ls l hl hc) hw
  · intro hinit hbul ch hch
    unfold buildXChunks at hch
    obtain ⟨ls, hls, rfl⟩ := List.mem_map.mp hch
    show textLen ls ≤ X_MAX_LEN
    unfold buildXChunksLines at hls
    split at hls
    · simp at hls
    · exact buildXGo_len emoji title items _ hinit hbul ls hls

set_option maxRecDepth 4000 in
/-- Counterexample to C4 as stated: a single bullet whose line alone
exceeds the 255 budget produces an over-budget chunk — the code defines no
truncation policy — while the bullet sequence is still reproduced
verbatim, i.e. the oversized bullet is emitted untruncated. -/
theorem c4_counterexample :
    (¬ ∀ ch ∈ buildXChunks "H" "Risers" "📈" [c4Item], ch.length ≤ X_MAX_LEN) ∧
    chunksBullets 3 (buildXChunksLines "H" "Risers" "📈" [c4Item]) = [bulletOf c4Item] := by
  constructor
  · decide
  · decide

/-- Witness for the amended C4 at a concrete ordinary-sized item,
discharging the bounded-input hypotheses of the length conjunct. -/
theorem c4_chunks_amended_witness :
    (textLen ["HDR", "", titleLineOf "📈" "Risers"] ≤ X_MAX_LEN) ∧
    (∀ c ∈ [c4wItem], textLen [contHeaderOf "📈" "Risers", bulletOf c] ≤ X_MAX_LEN) ∧
    (chunksBullets 3 (buildXChunksLines "HDR" "Risers" "📈" [c4wItem]) = [c4wItem].map bulletOf ∧
      (∀ ch ∈ buildXChunks "HDR" "Risers" "📈" [c4wItem], ch ≠ "") ∧
      (∀ ch ∈ buildXChunks "HDR" "Risers" "📈" [c4wItem], ch.length ≤ X_MAX_LEN)) :=
  ⟨by decide, by decide,
    (c4_chunks_amended "HDR" "Risers" "📈" [c4wItem]).1,
    (c4_chunks_amended "HDR" "Risers" "📈" [c4wItem]).2.1,
    (c4_chunks_amended "HDR" "Risers" "📈" [c4wItem]).2.2 (by decide) (by decide)⟩

lemma sorted_getLast?_max {α : Type} (r : α → α → Prop) [IsTrans α r] [IsRefl α r] :
    ∀ (l : List α) (m : α), l.Sorted r → l.getLast? = some m → ∀ x ∈ l, r x m := by
  intro l
  induction l with
  | nil => simp
  | cons a t ih =>
    intro m hs hlast x hx
    cases t with
    | nil =>
      simp at hlast
      subst hlast
      simp at hx
      subst hx
      exact refl_of r x
    | cons b r' =>
      have hlast' : (b :: r').getLast? = some m := by rwa [List.getLast?_cons_cons] at hlast
      rcases List.mem_cons.mp hx with h | h
      · subst h
        exact List.rel_of_sorted_cons hs m (List.mem_of_getLast?_eq_some hlast')
      · exact ih m hs.of_cons hlast' x h

/-- Counterexample to C5 as stated: a second run on the same date loads
the snapshot written earlier that day (not a strictly older one) and
overwrites the same-dated file, mutating it. -/
theorem c5_counterexample :
    ("2025-10-11.json", [("1", (50 : Int))]) ∈ c5Store1 ∧
    ("2025-10-11.json", [("1", (50 : Int))]) ∉ c5Run2.2 ∧
    c5Run2.1 = [("1", (50 : Int))] ∧
    c5Run2.2 = [("2025-10-11.json", [("1", (60 : Int))])] := by
  decide

/-- Claim C5 (amended): on a run whose date key is lexicographically
strictly greater than every existing snapshot key, the loaded snapshot is
the most recent one — strictly older than the file about to be written —
(or empty on a first run), every existing file survives unchanged, and the
new snapshot is added under the new date key.  A second run on the same
date instead overwrites that date's file (see the counterexample). -/
theorem c5_snapshot_amended (store : SnapStore) (dateStr : String) (players : List Obs)
    (hfresh : ∀ p ∈ store, strLt p.1 (dateStr ++ ".json")) :
    (store = [] → (runSnapshotStep store dateStr players).1 = []) ∧
    (store ≠ [] → ∃ pr ∈ store, (runSnapshotStep store dateStr players).1 = pr.2 ∧
      (∀ q ∈ store, strLe q.1 pr.1) ∧ strLt pr.1 (dateStr ++ ".json")) ∧
    (∀ p ∈ store, p ∈ (runSnapshotStep store dateStr players).2) ∧
    (dateStr ++ ".json", savedSnap players) ∈ (runSnapshotStep store dateStr players).2 := by
  refine ⟨?_, ?_, ?_, ?_⟩
  · intro h
    subst h
    rfl
  · intro hne
    have hperm := List.perm_insertionSort snapLe store
    have hsne : List.insertionSort snapLe store ≠ [] := by
      intro h
      rw [h] at hperm
      exact hne hperm.symm.eq_nil
    cases hm : (List.insertionSort snapLe store).getLast? with
    | none => exact absurd (List.getLast?_eq_none_iff.mp hm) hsne
    | some m =>
      have hmem : m ∈ store := hperm.mem_iff.mp (List.mem_of_getLast?_eq_some hm)
      refine ⟨m, hmem, ?_, ?_, hfresh m hmem⟩
      · show loadLatestSnapshot store = m.2
        unfold loadLatestSnapshot
        rw [hm]
      · intro q hq
        exact sorted_getLast?_max snapLe _ m (List.sorted_insertionSort snapLe store) hm q
          (hperm.mem_iff.mpr hq)
  · intro p hp
    have hne : p.1 ≠ dateStr ++ ".json" := by
      intro h
      have hlt := hfresh p hp
      rw [h] at hlt
      exact lt_irrefl _ hlt
    apply List.mem_append_left
    rw [List.mem_filter]
    exact ⟨hp, by simp [hne]⟩
  · exact List.mem_append_right _ (by simp)

/-- Witness for the amended C5 with one strictly older snapshot on disk. -/
theorem c5_snapshot_amended_witness :
    (∀ p ∈ c5wStore, strLt p.1 ("2025-10-11" ++ ".json")) ∧
    ((c5wStore = [] → (runSnapshotStep c5wStore "2025-10-11" [⟨1, "Alice", 60, 1⟩]).1 = []) ∧
      (c5wStore ≠ [] → ∃ pr ∈ c5wStore,
        (runSnapshotStep c5wStore "2025-10-11" [⟨1, "Alice", 60, 1⟩]).1 = pr.2 ∧
        (∀ q ∈ c5wStore, strLe q.1 pr.1) ∧ strLt pr.1 ("2025-10-11" ++ ".json")) ∧
      (∀ p ∈ c5wStore, p ∈ (runSnapshotStep c5wStore "2025-10-11" [⟨1, "Alice", 60, 1⟩]).2) ∧
      ("2025-10-11" ++ ".json", savedSnap [⟨1, "Alice", 60, 1⟩]) ∈
        (runSnapshotStep c5wStore "2025-10-11" [⟨1, "Alice", 60, 1⟩]).2) :=
  ⟨by decide, c5_snapshot_amended c5wStore "2025-10-11" [⟨1, "Alice", 60, 1⟩] (by decide)⟩

lemma parseTeam_ok_iff (t : RawTeam) : (∃ b, parseTeam t = Except.ok b) ↔ wfTeam t := by
  cases ht1 : t.id <;> cases ht2 : t.short_name <;>
    simp [parseTeam, wfTeam, ht1, ht2]

lemma parseElement_ok_iff (e : RawElement) : (∃ b, parseElement e = Except.ok b) ↔ wfElement e := by
  cases h1 : e.id <;> cases h2 : e.web_name <;> cases h3 : e.now_cost <;> cases h4 : e.team <;>
    simp [parseElement, wfElement, h1, h2, h3, h4]

lemma traverseE_ok_forall {α β : Type} (f : α → Except String β) :
    ∀ (l : List α) (bs : List β), traverseE f l = Except.ok bs → ∀ a ∈ l, ∃ b, f a = Except.ok b := by
  intro l
  induction l with
  | nil => simp
  | cons x t ih =>
    intro bs h a ha
    rw [traverseE] at h
    cases hf : f x with
    | error e => rw [hf] at h; simp at h
    | ok b =>
      rw [hf] at h
      cases ht : traverseE f t with
      | error e => rw [ht] at h; simp at h
      | ok bs' =>
        rcases List.mem_cons.mp ha with hh | hh
        · subst hh
          exact ⟨b, hf⟩
        · exact ih bs' ht a hh

lemma traverseE_ok_of_forall {α β : Type} (f : α → Except String β) :
    ∀ (l : List α), (∀ a ∈ l, ∃ b, f a = Except.ok b) → ∃ bs, traverseE f l = Except.ok bs := by
  intro l
  induction l with
  | nil => exact fun _ => ⟨[], rfl⟩
  | cons x t ih =>
    intro h
    obtain ⟨b, hb⟩ := h x (List.mem_cons_self x t)
    obtain ⟨bs, hbs⟩ := ih (fun a ha => h a (List.mem_cons_of_mem _ ha))
    exact ⟨b :: bs, by rw [traverseE, hb, hbs]⟩

lemma fetchPrices_ok_elim (d : FeedData)
    (r : List Obs × List (Int × String) × List (Int × Rat)) (h : fetchPrices d = Except.ok r) :
    ∃ ts tp es pp, d.teams = some ts ∧ traverseE parseTeam ts = Except.ok tp ∧
      d.elements = some es ∧ traverseE parseElement es = Except.ok pp := by
  unfold fetchPrices at h
  split at h
  next hts => exact absurd h (by simp)
  next ts hts =>
    split at h
    next e htp => exact absurd h (by simp)
    next tp htp =>
      split at h
      next hes => exact absurd h (by simp)
      next es hes =>
        split at h
        next e hpp => exact absurd h (by simp)
        next pp hpp => exact ⟨ts, tp, es, pp, hts, htp, hes, hpp⟩

lemma exit_one_of_not_ok (d : FeedData)
    (h : ∀ r, fetchPrices d ≠ Except.ok r) : mainExitCode d = 1 := by
  unfold mainExitCode
  cases hf : fetchPrices d with
  | error e => rfl
  | ok r => exact absurd hf (h r)

/-- Counterexample to C6 as stated: an empty entity list does NOT
propagate a fatal error — `fetch_prices` returns successfully and the run
exits 0. -/
theorem c6_counterexample :
    fetchPrices ⟨some [], some []⟩ = Except.ok ([], [], []) ∧
    mainExitCode ⟨some [], some []⟩ = 0 :=
  ⟨rfl, rfl⟩

/-- Claim C6 (amended): a malformed feed — missing `teams` or `elements`
keys, or any entry missing a required field — makes the run exit with
status 1; an empty entity list is accepted without error (exit 0, empty
players); parsing succeeds exactly on well-formed feeds; and the absence
of a previous snapshot is not an error: the loaded mapping is empty and
the diff against an empty snapshot yields an empty changeset. -/
theorem c6_errors_amended (d : FeedData) :
    (d.teams = none → mainExitCode d = 1) ∧
    (d.elements = none → mainExitCode d = 1) ∧
    (∀ ts, d.teams = some ts → ∀ t ∈ ts, ¬ wfTeam t → mainExitCode d = 1) ∧
    (∀ es, d.elements = some es → ∀ e ∈ es, ¬ wfElement e → mainExitCode d = 1) ∧
    (∀ ts, d.teams = some ts → (∀ t ∈ ts, wfTeam t) → d.elements = some [] →
      ∃ tp, fetchPrices d = Except.ok ([], tp, []) ∧ mainExitCode d = 0) ∧
    loadLatestSnapshot [] = [] ∧
    (∀ (players : List Obs) (teams : List (Int × String)) (own : Int → Rat),
      changesOf players [] teams own = []) := by
  refine ⟨?_, ?_, ?_, ?_, ?_, rfl, ?_⟩
  · intro h
    unfold mainExitCode fetchPrices
    rw [h]
  · intro h
    apply exit_one_of_not_ok
    intro r hr
    obtain ⟨ts, tp, es, pp, _, _, hes, _⟩ := fetchPrices_ok_elim d r hr
    rw [h] at hes
    exact Option.noConfusion hes
  · intro ts hts t ht hwf
    apply exit_one_of_not_ok
    intro r hr
    obtain ⟨ts', tp, es, pp, hts', htp, _, _⟩ := fetchPrices_ok_elim d r hr
    rw [hts] at hts'
    injection hts' with hts''
    subst hts''
    exact hwf ((parseTeam_ok_iff t).mp (traverseE_ok_forall parseTeam ts tp htp t ht))
  · intro es hes e he hwf
    apply exit_one_of_not_ok
    intro r hr
    obtain ⟨ts, tp, es', pp, _, _, hes', hpp⟩ := fetchPrices_ok_elim d r hr
    rw [hes] at hes'
    injection hes' with hes''
    subst hes''
    exact hwf ((parseElement_ok_iff e).mp (traverseE_ok_forall parseElement es pp hpp e he))
  · intro ts hts hwf hes
    obtain ⟨tp, htp⟩ := traverseE_ok_of_forall parseTeam ts
      (fun t ht => (parseTeam_ok_iff t).mpr (hwf t ht))
    have hfetch : fetchPrices d = Except.ok ([], tp, []) := by
      simp [fetchPrices, hts, htp, hes, traverseE]
    exact ⟨tp, hfetch, by unfold mainExitCode; rw [hfetch]⟩
  · intro players teams own
    rw [changesOf, List.filterMap_eq_nil_iff]
    intro a _
    rfl

/-- Witness for the amended C6 on a feed missing both keys. -/
theorem c6_errors_amended_witness : mainExitCode ⟨none, none⟩ = 1 :=
  (c6_errors_amended ⟨none, none⟩).1 rfl

lemma postLoop_stop (sess : Nat → Resp) (att r : Nat) (h : ¬ Retryable (sess att)) :
    postLoop sess att (r + 1) = (att, [], sess att) := by
  have h1 : ¬ (looksLikeCloudflare (sess att).2 = true) := fun hc => h (Or.inl hc)
  have h2 : (sess att).1 ∉ retrySet := fun hm => h (Or.inr hm)
  simp only [postLoop]
  rw [if_neg h1, if_neg h2]

lemma postLoop_retry_last (sess : Nat → Resp) (att : Nat) (h : Retryable (sess att)) :
    postLoop sess att 1 =
      (att, [backoffs.getD (min (att - 1) 4) 0], sess att) := by
  simp only [postLoop]
  rcases h with h | h
  · rw [if_pos h]
    simp [backoffs]
  · by_cases hc : looksLikeCloudflare (sess att).2 = true
    · rw [if_pos hc]
      simp [backoffs]
    · rw [if_neg hc, if_pos h]
      simp [backoffs]

lemma postLoop_retry_step (sess : Nat → Resp) (att r : Nat) (hr : r ≠ 0)
    (h : Retryable (sess att)) :
    postLoop sess att (r + 1) =
      ((postLoop sess (att + 1) r).1,
        backoffs.getD (min (att - 1) 4) 0 :: (postLoop sess (att + 1) r).2.1,
        (postLoop sess (att + 1) r).2.2) := by
  simp only [postLoop]
  rw [if_neg hr]
  rcases h with h | h
  · rw [if_pos h]
    simp [backoffs]
  · by_cases hc : looksLikeCloudflare (sess att).2 = true
    · rw [if_pos hc]
      simp [backoffs]
    · rw [if_neg hc, if_pos h]
      simp [backoffs]

lemma postLoop_spec (sess : Nat → Resp) :
    ∀ (k att rem : Nat), k < rem → (∀ i, i < k → Retryable (sess (att + i))) →
    ¬ Retryable (sess (att + k)) →
    postLoop sess att rem =
      (att + k, (List.range k).map (fun i => backoffs.getD (min (att + i - 1) 4) 0),
        sess (att + k)) := by
  intro k
  induction k with
  | zero =>
    intro att rem hlt _ hstop
    obtain ⟨r, rfl⟩ : ∃ r, rem = r + 1 := ⟨rem - 1, by omega⟩
    simpa using postLoop_stop sess att r (by simpa using hstop)
  | succ k ih =>
    intro att rem hlt hall hstop
    obtain ⟨r, rfl⟩ : ∃ r, rem = r + 1 := ⟨rem - 1, by omega⟩
    have hr : r ≠ 0 := by omega
    rw [postLoop_retry_step sess att r hr (by simpa using hall 0 (by omega))]
    rw [ih (att + 1) r (by omega)
      (fun i hi => by
        have h2 := hall (i + 1) (by omega)
        have he : att + (i + 1) = att + 1 + i := by omega
        rwa [he] at h2)
      (by
        have : att + 1 + k = att + (k + 1) := by omega
        rw [this]
        exact hstop)]
    have harith : att + 1 + k = att + (k + 1) := by omega
    rw [harith]
    refine Prod.ext rfl (Prod.ext ?_ rfl)
    show backoffs.getD (min (att - 1) 4) 0 ::
        (List.range k).map (fun i => backoffs.getD (min (att + 1 + i - 1) 4) 0) =
      (List.range (k + 1)).map (fun i => backoffs.getD (min (att + i - 1) 4) 0)
    rw [List.range_succ_eq_map, List.map_cons, List.map_map]
    refine congrArg₂ _ (by norm_num) ?_
    apply List.map_congr_left
    intro i _
    have : att + 1 + i - 1 = att + (i + 1) - 1 := by omega
    simp [Function.comp, this]

lemma postLoop_exhaust (sess : Nat → Resp) :
    ∀ (rem att : Nat), rem ≠ 0 → (∀ i, i < rem → Retryable (sess (att + i))) →
    postLoop sess att rem =
      (att + rem - 1, (List.range rem).map (fun i => backoffs.getD (min (att + i - 1) 4) 0),
        sess (att + rem - 1)) := by
  intro rem
  induction rem with
  | zero => intro att h _; exact absurd rfl h
  | succ r ih =>
    intro att _ hall
    by_cases hr : r = 0
    · subst hr
      rw [postLoop_retry_last sess att (by simpa using hall 0 (by omega))]
      rw [show List.range 1 = [0] from by decide]
      simp
    · rw [postLoop_retry_step sess att r hr (by simpa using hall 0 (by omega))]
      rw [ih (att + 1) hr
        (fun i hi => by
          have h2 := hall (i + 1) (by omega)
          have he : att + (i + 1) = att + 1 + i := by omega
          rwa [he] at h2)]
      have harith : att + 1 + r - 1 = att + (r + 1) - 1 := by omega
      rw [harith]
      refine Prod.ext rfl (Prod.ext ?_ rfl)
      show backoffs.getD (min (att - 1) 4) 0 ::
          (List.range r).map (fun i => backoffs.getD (min (att + 1 + i - 1) 4) 0) =
        (List.range (r + 1)).map (fun i => backoffs.getD (min (att + i - 1) 4) 0)
      rw [List.range_succ_eq_map, List.map_cons, List.map_map]
      refine congrArg₂ _ (by norm_num) ?_
      apply List.map_congr_left
      intro i _
      have he : att + 1 + i - 1 = att + (i + 1) - 1 := by omega
      simp [Function.comp, he]

/-- Claim C7: the retry loop retries exactly on challenge pages and on
statuses 429/500/502/503/504, waiting per the backoff schedule
`[2, 5, 10, 20, 30]` indexed by `min (attempt-1) 4`, and returns
immediately on any other response; at most 5 attempts are made; a
challenge page twice followed by a success yields exactly 3 attempts and a
succeeded thread; a permanent 403 yields exactly 1 attempt and a failed
thread. -/
theorem c7_retry_characterization (sess : Nat → Resp) :
    (∀ k : Nat, k + 1 ≤ 5 → (∀ i, i < k → Retryable (sess (i + 1))) →
      ¬ Retryable (sess (k + 1)) →
      postWithRetries sess =
        (k + 1, (List.range k).map (fun i => backoffs.getD (min i 4) 0), sess (k + 1))) ∧
    ((∀ i, i < 5 → Retryable (sess (i + 1))) →
      postWithRetries sess = (5, backoffs, sess 5)) ∧
    postWithRetries c7CfTwice = (3, [2, 5], (201, "ok")) ∧
    postWithRetries c7Perm403 = (1, [], (403, "forbidden")) ∧
    postThreadAux (fun _ => none) c7CfTwice false ["msg"] 0 none =
      Except.ok (true, [⟨⟨"msg", none⟩, 201, "ok"⟩], 3) ∧
    postThreadAux (fun _ => none) c7Perm403 true ["msg"] 0 none =
      Except.ok (false, [⟨⟨"msg", none⟩, 403, "forbidden"⟩], 1) := by
  refine ⟨?_, ?_, by decide, by decide, by decide, by decide⟩
  · intro k h5 hall hstop
    unfold postWithRetries
    rw [postLoop_spec sess k 1 5 (by omega)
      (fun i hi => by
        have h2 := hall i hi
        have he : i + 1 = 1 + i := by omega
        rwa [he] at h2)
      (by
        have he : 1 + k = k + 1 := by omega
        rw [he]
        exact hstop)]
    have he : 1 + k = k + 1 := by omega
    rw [he]
    refine Prod.ext rfl (Prod.ext ?_ rfl)
    show (List.range k).map (fun i => backoffs.getD (min (1 + i - 1) 4) 0) =
      (List.range k).map (fun i => backoffs.getD (min i 4) 0)
    apply List.map_congr_left
    intro i _
    have he2 : 1 + i - 1 = i := by omega
    rw [he2]
  · intro hall
    unfold postWithRetries
    rw [postLoop_exhaust sess 5 1 (by omega)
      (fun i hi => by
        have h2 := hall i hi
        have he : i + 1 = 1 + i := by omega
        rwa [he] at h2)]
    have hw : (List.range 5).map (fun i => backoffs.getD (min (1 + i - 1) 4) 0) = backoffs := by
      decide
    rw [hw]

/-- Witness for C7: the general characterization applied at the permanent
403 endpoint with no leading retryable responses. -/
theorem c7_retry_characterization_witness :
    ((0 + 1 ≤ 5) ∧ (∀ i : Nat, i < 0 → Retryable (c7Perm403 (i + 1))) ∧
      ¬ Retryable (c7Perm403 (0 + 1))) ∧
    postWithRetries c7Perm403 =
      (0 + 1, (List.range 0).map (fun i => backoffs.getD (min i 4) 0), c7Perm403 (0 + 1)) :=
  ⟨⟨by decide, by decide, by decide⟩,
    (c7_retry_characterization c7Perm403).1 0 (by decide) (by decide) (by decide)⟩

lemma postLoop_final_sess (sess : Nat → Resp) :
    ∀ (r att : Nat), r ≠ 0 → ∃ j, (postLoop sess att r).2.2 = sess j := by
  intro r
  induction r with
  | zero => intro att h; exact absurd rfl h
  | succ r ih =>
    intro att _
    by_cases hret : Retryable (sess att)
    · by_cases hr : r = 0
      · subst hr
        rw [postLoop_retry_last sess att hret]
        exact ⟨att, rfl⟩
      · rw [postLoop_retry_step sess att r hr hret]
        exact ih (att + 1) hr
    · rw [postLoop_stop sess att r hret]
      exact ⟨att, rfl⟩

lemma postWithRetriesFrom_final (sess : Nat → Resp) (off : Nat) :
    ∃ j, (postWithRetriesFrom sess off).2.2 = sess j := by
  obtain ⟨j, hj⟩ := postLoop_final_sess (fun i => sess (off + i)) 5 1 (by omega)
  exact ⟨off + j, hj⟩

lemma postThreadAux_chain (parseId : String → Option String) (sess : Nat → Resp) (softFail : Bool)
    (hparse : ∀ i : Nat, (sess i).1 < 400 → (parseId (sess i).2).isSome = true) :
    ∀ (files : List String) (off : Nat) (parent : Option String) (b : Bool)
      (ps : List Posted) (off' : Nat),
    postThreadAux parseId sess softFail files off parent = Except.ok (b, ps, off') →
    (∀ p ∈ ps.head?, p.payload.reply = parent) ∧
    (∀ (i : Nat) (p q : Posted), ps[i]? = some p → ps[i + 1]? = some q →
      q.payload.reply = parseId p.body) := by
  intro files
  induction files with
  | nil =>
    intro off parent b ps off' h
    rw [postThreadAux] at h
    simp only [Except.ok.injEq, Prod.mk.injEq] at h
    obtain ⟨hb, hps, hoff⟩ := h
    subst hps
    constructor
    · intro p hp
      simp at hp
    · intro i p q hp _
      simp at hp
  | cons f rest ih =>
    intro off parent b ps off' h
    rw [postThreadAux] at h
    by_cases ht : stripStr f = ""
    · rw [if_pos ht] at h
      exact ih off parent b ps off' h
    · rw [if_neg ht] at h
      simp only [] at h
      by_cases hs : 400 ≤ (postWithRetriesFrom sess off).2.2.1
      · rw [if_pos hs] at h
        cases hsf : softFail with
        | false =>
          rw [hsf] at h
          simp at h
        | true =>
          rw [hsf] at h
          simp only [if_true, Except.ok.injEq, Prod.mk.injEq] at h
          obtain ⟨hb, hps, hoff⟩ := h
          subst hps
          constructor
          · intro p hp
            simp only [List.head?_cons, Option.mem_def, Option.some.injEq] at hp
            subst hp
            rfl
          · intro i p q hp hq
            cases i with
            | zero => simp at hq
            | succ j => simp at hq
      · rw [if_neg hs] at h
        cases hrec : postThreadAux parseId sess softFail rest
            (off + (postWithRetriesFrom sess off).1)
            (match parseId (postWithRetriesFrom sess off).2.2.2 with
              | some v => some v
              | none => parent) with
        | error e =>
          rw [hrec] at h
          simp at h
        | ok res =>
          obtain ⟨b', ps', off''⟩ := res
          rw [hrec] at h
          simp only [Except.ok.injEq, Prod.mk.injEq] at h
          obtain ⟨hb, hps, hoff⟩ := h
          subst hps
          have hlt : (postWithRetriesFrom sess off).2.2.1 < 400 := by omega
          obtain ⟨j, hj⟩ := postWithRetriesFrom_final sess off
          have hsome : (parseId (postWithRetriesFrom sess off).2.2.2).isSome = true := by
            rw [hj]
            exact hparse j (by rw [← hj]; exact hlt)
          obtain ⟨v, hv⟩ := Option.isSome_iff_exists.mp hsome
          have hpar : (match parseId (postWithRetriesFrom sess off).2.2.2 with
              | some v => some v
              | none => parent) = parseId (postWithRetriesFrom sess off).2.2.2 := by
            rw [hv]
          obtain ⟨ihhead, ihchain⟩ := ih _ _ _ _ _ (by rw [← hrec])
          constructor
          · intro p hp
            simp only [List.head?_cons, Option.mem_def, Option.some.injEq] at hp
            subst hp
            rfl
          · intro i p q hp hq
            cases i with
            | zero =>
              simp only [List.getElem?_cons_zero, Option.some.injEq] at hp
              simp only [List.getElem?_cons_succ] at hq
              subst hp
              have hq' : q ∈ ps'.head? := by
                cases ps' with
                | nil => simp at hq
                | cons x t =>
                  simp only [List.getElem?_cons_zero, Option.some.injEq] at hq
                  subst hq
                  rfl
              have := ihhead q hq'
              rw [this, hpar]
            | succ j =>
              simp only [List.getElem?_cons_succ] at hp hq
              exact ihchain j p q hp hq

/-- Claim C8: within one thread, the first posted chunk's payload carries
no reply reference, and — when every success response carries a parseable
identifier, as the endpoint contract guarantees — each later posted
chunk's payload references the identifier parsed from the previously
posted (and necessarily succeeded) chunk's response. -/
theorem c8_thread_linkage (parseId : String → Option String) (sess : Nat → Resp)
    (softFail : Bool) (files : List String)
    (hparse : ∀ i : Nat, (sess i).1 < 400 → (parseId (sess i).2).isSome = true)
    (b : Bool) (ps : List Posted) (off' : Nat)
    (hrun : postThreadAux parseId sess softFail files 0 none = Except.ok (b, ps, off')) :
    (∀ p ∈ ps.head?, p.payload.reply = none) ∧
    (∀ (i : Nat) (p q : Posted), ps[i]? = some p → ps[i + 1]? = some q →
      q.payload.reply = parseId p.body) :=
  postThreadAux_chain parseId sess softFail hparse files 0 none b ps off' hrun

/-- Witness for C8 on a two-chunk thread against an always-succeeding
endpoint. -/
theorem c8_thread_linkage_witness :
    (∀ i : Nat, (c8Sess i).1 < 400 → (c8Parse (c8Sess i).2).isSome = true) ∧
    (postThreadAux c8Parse c8Sess false ["hello", "world"] 0 none =
      Except.ok (true, c8Ps, 2)) ∧
    ((∀ p ∈ c8Ps.head?, p.payload.reply = none) ∧
      (∀ (i : Nat) (p q : Posted), c8Ps[i]? = some p → c8Ps[i + 1]? = some q →
        q.payload.reply = c8Parse p.body)) :=
  ⟨fun _ _ => (by decide : (c8Parse "ok1").isSome = true), by decide,
    c8_thread_linkage c8Parse c8Sess false ["hello", "world"]
      (fun _ _ => (by decide : (c8Parse "ok1").isSome = true))
      true c8Ps 2 (by decide)⟩

/-- Claim C9: the fallers thread is posted before the risers thread; the
run propagates an error exactly when the fallers thread does, so a risers
failure never propagates; and the fallers thread's recorded outcome inside
the run equals the outcome of posting the fallers thread alone, for every
choice of riser files and riser responses. -/
theorem c9_soft_fail_isolation (parseId : String → Option String) (sess : Nat → Resp)
    (softFailFallers : Bool) (fallerFiles riserFiles : List String) :
    (∀ e : String,
      mainPost parseId sess softFailFallers fallerFiles riserFiles = Except.error e ↔
      postThreadAux parseId sess softFailFallers fallerFiles 0 none = Except.error e) ∧
    (∀ fres, postThreadAux parseId sess softFailFallers fallerFiles 0 none = Except.ok fres →
      mainPost parseId sess softFailFallers fallerFiles riserFiles =
        Except.ok (fres,
          match postThreadAux parseId sess true riserFiles fres.2.2 none with
          | Except.ok rres => some rres
          | Except.error _ => none)) := by
  constructor
  · intro e
    cases hf : postThreadAux parseId sess softFailFallers fallerFiles 0 none with
    | error e' => simp [mainPost, hf]
    | ok fres =>
      cases hr : postThreadAux parseId sess true riserFiles fres.2.2 none with
      | ok rres => simp [mainPost, hf, hr]
      | error e2 => simp [mainPost, hf, hr]
  · intro fres hf
    cases hr : postThreadAux parseId sess true riserFiles fres.2.2 none with
    | ok rres => simp [mainPost, hf, hr]
    | error e2 => simp [mainPost, hf, hr]

/-- Witness for C9 where the fallers thread succeeds and the risers
thread hits a permanent 403 and soft-fails. -/
theorem c9_soft_fail_isolation_witness :
    (postThreadAux c9Parse c9Sess false ["a"] 0 none =
      Except.ok (true, [⟨⟨"a", none⟩, 201, "ok1"⟩], 1)) ∧
    mainPost c9Parse c9Sess false ["a"] ["b"] =
      Except.ok ((true, [⟨⟨"a", none⟩, 201, "ok1"⟩], 1),
        some (false, [⟨⟨"b", none⟩, 403, "no"⟩], 2)) :=
  ⟨by decide,
    (c9_soft_fail_isolation c9Parse c9Sess false ["a"] ["b"]).2
      (true, [⟨⟨"a", none⟩, 201, "ok1"⟩], 1) (by decide)⟩

/-- Claim C10: `build_x_chunks` on an empty item list returns no chunks at
all for any header, title and emoji — no header-only post — and
`post_thread` finding no chunk files posts nothing and returns success. -/
theorem c10_empty_group :
    (∀ headerText title emoji : String,
      buildXChunksLines headerText title emoji [] = [] ∧
      buildXChunks headerText title emoji [] = []) ∧
    (∀ (parseId : String → Option String) (sess : Nat → Resp) (softFail : Bool)
      (off : Nat) (parent : Option String),
      postThreadAux parseId sess softFail [] off parent = Except.ok (true, [], off)) := by
  constructor
  · intro h t e
    exact ⟨rfl, rfl⟩
  · intro parseId sess softFail off parent
    rfl

lemma emitChange_eq_some (prev : List (String × Int)) (teams : List (Int × String))
    (own : Int → Rat) (p : Obs) (c : Chg) :
    emitChange prev teams own p = some c ↔
      ∃ old, prev.lookup (strOfInt p.pid) = some old ∧ old ≠ p.cost ∧
        c = mkChg teams own p old := by
  unfold emitChange
  cases h : prev.lookup (strOfInt p.pid) with
  | none => simp
  | some old =>
    show (if old ≠ p.cost then some (mkChg teams own p old) else none) = some c ↔
      ∃ old', some old = some old' ∧ old' ≠ p.cost ∧ c = mkChg teams own p old'
    by_cases hne : old ≠ p.cost
    · rw [if_pos hne]
      constructor
      · intro hc
        injection hc with hc
        exact ⟨old, rfl, hne, hc.symm⟩
      · rintro ⟨old', hol, _, hc⟩
        injection hol with hol
        subst hol
        rw [hc]
    · rw [if_neg hne]
      constructor
      · intro hc
        exact absurd hc (by simp)
      · rintro ⟨old', hol, hne', _⟩
        injection hol with hol
        subst hol
        exact absurd hne' hne

lemma emitChange_pid (prev : List (String × Int)) (teams : List (Int × String))
    (own : Int → Rat) (p : Obs) (c : Chg)
    (hp : emitChange prev teams own p = some c) : c.pid = p.pid := by
  obtain ⟨old, _, _, hc⟩ := (emitChange_eq_some prev teams own p c).mp hp
  subst hc
  rfl

lemma changes_countP_zero (prev : List (String × Int)) (teams : List (Int × String))
    (own : Int → Rat) (l : List Obs) (x : Int) (hx : ∀ q ∈ l, q.pid ≠ x) :
    (l.filterMap (emitChange prev teams own)).countP (fun d => decide (d.pid = x)) = 0 := by
  rw [List.countP_eq_zero]
  intro c hc
  obtain ⟨q, hq, hemit⟩ := List.mem_filterMap.mp hc
  have := emitChange_pid prev teams own q c hemit
  simp only [decide_eq_true_eq]
  rw [this]
  exact hx q hq

lemma changes_countP_one (prev : List (String × Int)) (teams : List (Int × String))
    (own : Int → Rat) :
    ∀ (players : List Obs), (players.map Obs.pid).Nodup →
    ∀ p ∈ players, ∀ c, emitChange prev teams own p = some c →
    (players.filterMap (emitChange prev teams own)).countP
      (fun d => decide (d.pid = p.pid)) = 1 := by
  intro players
  induction players with
  | nil => simp
  | cons q t ih =>
    intro hnd p hp c hemit
    rw [List.map_cons, List.nodup_cons] at hnd
    obtain ⟨hqnot, hndt⟩ := hnd
    rcases List.mem_cons.mp hp with hpq | hpt
    · subst hpq
      rw [List.filterMap_cons_some hemit, List.countP_cons]
      have hcpid : c.pid = p.pid := emitChange_pid prev teams own p c hemit
      rw [changes_countP_zero prev teams own t p.pid
        (fun r hr heq => hqnot (by rw [← heq]; exact List.mem_map_of_mem Obs.pid hr))]
      simp [hcpid]
    · have hqp : q.pid ≠ p.pid := fun heq =>
        hqnot (by rw [heq]; exact List.mem_map_of_mem Obs.pid hpt)
      cases hq : emitChange prev teams own q with
      | none =>
        rw [List.filterMap_cons_none hq]
        exact ih hndt p hpt c hemit
      | some c' =>
        rw [List.filterMap_cons_some hq, List.countP_cons]
        have hc' : c'.pid = q.pid := emitChange_pid prev teams own q c' hq
        rw [ih hndt p hpt c hemit]
        simp [hc', hqp]

/-- Claim C1: for every current observation set with unique ids and every
previous snapshot, the changeset holds exactly one change record per entity
whose stringified id is a key of the snapshot with a differing stored price
(with `delta = new - old`); entities absent from the snapshot, unchanged, or
present only in the snapshot produce no record; risers are exactly the
records with positive delta and fallers exactly those with negative delta,
each a permutation of the corresponding filter sorted by ownership
descending with ties broken by case-insensitive name ascending. -/
theorem c1_diff_changeset (players : List Obs) (prev : List (String × Int))
    (teams : List (Int × String)) (own : Int → Rat)
    (hids : (players.map Obs.pid).Nodup) :
    (∀ p ∈ players, ∀ old : Int, prev.lookup (strOfInt p.pid) = some old → old ≠ p.cost →
      (changesOf players prev teams own).countP (fun c => decide (c.pid = p.pid)) = 1 ∧
      mkChg teams own p old ∈ changesOf players prev teams own) ∧
    (∀ p ∈ players, (∀ old : Int, prev.lookup (strOfInt p.pid) = some old → old = p.cost) →
      ∀ c ∈ changesOf players prev teams own, c.pid ≠ p.pid) ∧
    (∀ c ∈ changesOf players prev teams own, ∃ p ∈ players, ∃ old : Int,
      prev.lookup (strOfInt p.pid) = some old ∧ old ≠ p.cost ∧ c = mkChg teams own p old ∧
      c.delta = c.new - c.old) ∧
    List.Perm (risersOf players prev teams own)
      ((changesOf players prev teams own).filter (fun c => decide (0 < c.delta))) ∧
    (risersOf players prev teams own).Sorted keyLE ∧
    List.Perm (fallersOf players prev teams own)
      ((changesOf players prev teams own).filter (fun c => decide (c.delta < 0))) ∧
    (fallersOf players prev teams own).Sorted keyLE := by
  refine ⟨?_, ?_, ?_, List.perm_insertionSort keyLE _, List.sorted_insertionSort keyLE _,
    List.perm_insertionSort keyLE _, List.sorted_insertionSort keyLE _⟩
  · intro p hp old hold hne
    have hemit : emitChange prev teams own p = some (mkChg teams own p old) :=
      (emitChange_eq_some prev teams own p _).mpr ⟨old, hold, hne, rfl⟩
    exact ⟨changes_countP_one prev teams own players hids p hp _ hemit,
      List.mem_filterMap.mpr ⟨p, hp, hemit⟩⟩
  · intro p hp hnochange c hc hcp
    obtain ⟨q, hq, hemit⟩ := List.mem_filterMap.mp hc
    obtain ⟨old, hold, hne, _⟩ := (emitChange_eq_some prev teams own q c).mp hemit
    have hcq : c.pid = q.pid := emitChange_pid prev teams own q c hemit
    have hpq : q = p := List.inj_on_of_nodup_map hids hq hp (by rw [← hcq]; exact hcp)
    subst hpq
    exact hne (hnochange old hold)
  · intro c hc
    obtain ⟨q, hq, hemit⟩ := List.mem_filterMap.mp hc
    obtain ⟨old, hold, hne, hceq⟩ := (emitChange_eq_some prev teams own q c).mp hemit
    exact ⟨q, hq, old, hold, hne, hceq, by rw [hceq]; rfl⟩

/-- Witness for C1 at the spec's concrete example. -/
theorem c1_diff_changeset_witness :
    (c1Players.map Obs.pid).Nodup ∧
    ((∀ p ∈ c1Players, ∀ old : Int,
        c1Prev.lookup (strOfInt p.pid) = some old → old ≠ p.cost →
        (changesOf c1Players c1Prev c1Teams c1Own).countP
          (fun c => decide (c.pid = p.pid)) = 1 ∧
        mkChg c1Teams c1Own p old ∈ changesOf c1Players c1Prev c1Teams c1Own) ∧
      (∀ p ∈ c1Players,
        (∀ old : Int, c1Prev.lookup (strOfInt p.pid) = some old → old = p.cost) →
        ∀ c ∈ changesOf c1Players c1Prev c1Teams c1Own, c.pid ≠ p.pid) ∧
      (∀ c ∈ changesOf c1Players c1Prev c1Teams c1Own, ∃ p ∈ c1Players, ∃ old : Int,
        c1Prev.lookup (strOfInt p.pid) = some old ∧ old ≠ p.cost ∧
        c = mkChg c1Teams c1Own p old ∧ c.delta = c.new - c.old) ∧
      List.Perm (risersOf c1Players c1Prev c1Teams c1Own)
        ((changesOf c1Players c1Prev c1Teams c1Own).filter (fun c => decide (0 < c.delta))) ∧
      (risersOf c1Players c1Prev c1Teams c1Own).Sorted keyLE ∧
      List.Perm (fallersOf c1Players c1Prev c1Teams c1Own)
        ((changesOf c1Players c1Prev c1Teams c1Own).filter (fun c => decide (c.delta < 0))) ∧
      (fallersOf c1Players c1Prev c1Teams c1Own).Sorted keyLE) :=
  ⟨by decide, c1_diff_changeset c1Players c1Prev c1Teams c1Own (by decide)⟩

/-- Claim C2 (code bug): on a concrete changeset with one riser and one
over-long faller bullet, the trimming loop removes the faller bullet
(hidden count 1, so the trailer is appended) and stops with the
`📉 <b>Fallers</b>` group header as the last line — a header with zero
bullet lines under it, which the claim and spec forbid. -/
theorem c2_orphan_header_eval :
    trimTGAux c2Head (c2Lines.length + 1) c2Lines 0 =
      (["📈 <b>Risers</b>", "• <b>Alice</b> (ARS): +0.1m → £5.1m", "", "📉 <b>Fallers</b>"], 1) ∧
    (trimTGAux c2Head (c2Lines.length + 1) c2Lines 0).1.getLast? = some "📉 <b>Fallers</b>" ∧
    0 < (trimTGAux c2Head (c2Lines.length + 1) c2Lines 0).2 := by
  have h : trimTGAux c2Head (c2Lines.length + 1) c2Lines 0 =
      (["📈 <b>Risers</b>", "• <b>Alice</b> (ARS): +0.1m → £5.1m", "", "📉 <b>Fallers</b>"], 1) := by
    rw [c2Lines_eq]
    exact c2_step
  exact ⟨h, by rw [h]; rfl, by rw [h]; decide⟩
